import Mathlib

/-!
Verification of the pzem-edl library (vortigont/pzem-edl) against its
natural-language specification.  The C++ sources are shallowly embedded as
executable Lean definitions; machine integers are modelled as `Nat`/`Int`
with explicit reductions modulo `2^w` where the C++ arithmetic wraps.
-/

set_option maxHeartbeats 1000000

/-- Wrap-around modulus of 32-bit unsigned arithmetic. -/
def u32 : Nat := 2 ^ 32

/-- Wrap-around modulus of 16-bit unsigned arithmetic. -/
def u16 : Nat := 2 ^ 16

/-- Unsigned 32-bit subtraction `a - b` (C `uint32_t` semantics) for
`a, b < 2^32`.  Used for the `time -= tstamp` step of `TimeSeries::push`. -/
def sub32 (a b : Nat) : Nat := (a + (u32 - b % u32)) % u32

/-- Embedding of `RingBuff<T>` (timeseries.hpp).  The malloc-backed storage is
modelled as a total function `Nat → T` giving the contents of every allocated
cell (the claims assume the allocation in the constructor succeeded, so the
`if (!data) return;` guard of `push_back` never fires).  `head` and `size` are
C++ `int`, kept as `Nat` since every reachable state has them non-negative. -/
structure RingBuff (T : Type) where
  capacity : Nat
  head : Nat
  size : Nat
  data : Nat → T

namespace RingBuff

/-- A freshly constructed `RingBuff(_s)` with arbitrary (uninitialised)
storage contents `store`: `head = 0`, `size = 0`. -/
def fresh (c : Nat) (store : Nat → T) : RingBuff T :=
  { capacity := c, head := 0, size := 0, data := store }

/-- `RingBuff<T>::tail()`: `(head + size) % capacity`. -/
def tail (rb : RingBuff T) : Nat := (rb.head + rb.size) % rb.capacity

/-- `RingBuff<T>::push_back` (timeseries.hpp lines 640-650):
writes `val` at `tail()`, then either grows `size` or advances `head`
(wrapping) when the buffer is full. -/
def push_back (rb : RingBuff T) (val : T) : RingBuff T :=
  let d : Nat → T := fun i => if i = rb.tail then val else rb.data i
  if rb.size ≠ rb.capacity then
    { rb with data := d, size := rb.size + 1 }
  else
    { rb with data := d,
              head := if rb.head + 1 = rb.capacity then 0 else rb.head + 1 }

/-- `RingBuff<T>::clear()`: resets `head` and `size`, storage untouched. -/
def clear (rb : RingBuff T) : RingBuff T := { rb with head := 0, size := 0 }

/-- Physical index computed by `RingBuff<T>::at(int offset)`
(timeseries.hpp lines 218-227): `none` models the `nullptr` return for an
empty buffer; otherwise the C++ `offset %= size; if (offset < 0) offset +=
size;` (truncated `%`, then sign fix-up) followed by `(head + offset) %
capacity`. -/
def atIdx (rb : RingBuff T) (offset : Int) : Option Nat :=
  if rb.size = 0 then none
  else
    let o : Int := Int.tmod offset (rb.size : Int)
    let o' : Int := if o < 0 then o + (rb.size : Int) else o
    some ((rb.head + o'.toNat) % rb.capacity)

/-- Value returned through the pointer of `RingBuff<T>::at`. -/
def atVal (rb : RingBuff T) (offset : Int) : Option T :=
  (rb.atIdx offset).map rb.data

/-- Dereference of a `RingIterator` with logical index `m_idx`:
`RingIterator::get` calls `m_ptr->at(std::abs(m_idx))`. -/
def iterGet (rb : RingBuff T) (m_idx : Int) : Option T :=
  rb.atVal (Int.natAbs m_idx)

/-- A sequence of `push_back` calls. -/
def pushN (rb : RingBuff T) (vs : List T) : RingBuff T :=
  vs.foldl push_back rb

end RingBuff

/-! ## MODBUS messages (msgq.hpp) -/

/-- Embedding of `RX_msg` (msgq.hpp): a received reply.  `rawdata` is the
byte buffer; `valid` is the CRC flag computed at construction. -/
structure RX_msg where
  rawdata : List Nat
  valid : Bool

namespace RX_msg

/-- Byte access `rawdata[i]`; the storage holds `uint8_t`, so reads are
reduced mod 256. -/
def byteAt (m : RX_msg) (i : Nat) : Nat := m.rawdata.getD i 0 % 256

/-- `RX_msg::len`. -/
def len (m : RX_msg) : Nat := m.rawdata.length

/-- `RX_msg::addr = rawdata[0]`. -/
def addr (m : RX_msg) : Nat := m.byteAt 0

/-- `RX_msg::cmd = rawdata[1]`. -/
def cmd (m : RX_msg) : Nat := m.byteAt 1

/-- The 16-bit big-endian word at bytes `i, i+1`, i.e. the C++ idiom
`__builtin_bswap16(*(uint16_t*)&rawdata[i])` on a little-endian host. -/
def be16 (m : RX_msg) (i : Nat) : Nat := m.byteAt i * 256 + m.byteAt (i + 1)

end RX_msg

/-- Embedding of `TX_msg` (msgq.hpp): a request frame to transmit.
`data` is the byte buffer (`len = data.length`), `w4rx` the
wait-for-reply flag. -/
structure TX_msg where
  data : List Nat
  w4rx : Bool
  deriving DecidableEq

/-- `TX_msg::len`. -/
def TX_msg.len (m : TX_msg) : Nat := m.data.length

/-! ## PZEM004 v3 protocol state (pzem_modbus.hpp / pzem_modbus.cpp) -/

/-- MODBUS command bytes used by the library (`pzmbus::pzemcmd_t`). -/
def CMD_RHR : Nat := 0x03
def CMD_RIR : Nat := 0x04
def CMD_WSR : Nat := 0x06
def CMD_RST_ENRG : Nat := 0x42
def CMD_RERR : Nat := 0x84
def CMD_WERR : Nat := 0x86
def CMD_CALERR : Nat := 0xC1
def CMD_RSTERR : Nat := 0xC2

/-- Slave address space constants. -/
def ADDR_MIN : Nat := 0x01
def ADDR_MAX : Nat := 0xF7
def ADDR_ANY : Nat := 0xF8

/-- `pzmbus::pzem_err_t` underlying byte values. -/
def err_ok : Nat := 0
def err_parse : Nat := 5

namespace pz004

/-- Embedding of `pz004::metrics` (pzem_modbus.hpp). -/
structure metrics where
  voltage : Nat
  current : Nat
  power : Nat
  energy : Nat
  freq : Nat
  pf : Nat
  alarm : Nat
  deriving DecidableEq

/-- Default-constructed `pz004::metrics` (all fields zero). -/
def metrics.zero : metrics := ⟨0, 0, 0, 0, 0, 0, 0⟩

/-- Embedding of `pz004::metrics::parse_rx_msg` (pzem_modbus.cpp lines
159-174); `none` models the `false` return (fields untouched), `some`
the parsed register window. -/
def metrics.parse_rx_msg (_cur : metrics) (m : RX_msg) : Option metrics :=
  if m.cmd ≠ CMD_RIR ∨ m.byteAt 2 ≠ 0x14 then none
  else some
    { voltage := m.be16 3
      current := m.be16 5 + m.be16 7 * u16
      power := m.be16 9 + m.be16 11 * u16
      energy := m.be16 13 + m.be16 15 * u16
      freq := m.be16 17
      pf := m.be16 19
      alarm := m.be16 21 }

/-- Embedding of `pz004::state` (pzem_modbus.hpp): parser-visible fields of
the meter state.  `err` is the underlying byte of `pzem_err_t`. -/
structure state where
  addr : Nat
  err : Nat
  poll_us : Int
  update_us : Int
  data : metrics
  alrm_thrsh : Nat
  alarm : Bool
  deriving DecidableEq

/-- `pz004::state` as default-constructed: `addr = ADDR_ANY`. -/
def state.init : state :=
  { addr := ADDR_ANY, err := 0, poll_us := 0, update_us := 0,
    data := metrics.zero, alrm_thrsh := 0, alarm := false }

/-- Embedding of `pz004::state::parse_rx_mgs` (pzem_modbus.cpp lines
176-227).  `now` stands for `esp_timer_get_time()` (external time source);
the returned `Bool` is the C++ return value. -/
def state.parse_rx_mgs (st : state) (m : RX_msg) (skiponbad : Bool)
    (now : Int) : state × Bool :=
  if m.valid = false ∧ skiponbad then (st, false)
  else if m.addr ≠ st.addr ∧ skiponbad then (st, false)
  else if m.cmd = CMD_RIR then
    match st.data.parse_rx_msg m with
    | some d => ({ st with data := d, err := err_ok, update_us := now }, true)
    | none => ({ st with err := err_parse }, false)
  else if m.cmd = CMD_RHR then
    let st' := if m.byteAt 2 = 2 * 2 then
        { st with alrm_thrsh := m.be16 3, addr := m.byteAt 6 }
      else st
    ({ st' with err := err_ok, update_us := now }, true)
  else if m.cmd = CMD_WSR then
    let st' := if m.byteAt 3 = 0x02 then { st with addr := m.byteAt 5 }
      else if m.byteAt 3 = 0x01 then { st with alrm_thrsh := m.be16 4 }
      else st
    ({ st' with err := err_ok, update_us := now }, true)
  else if m.cmd = CMD_RST_ENRG then
    ({ st with data := { st.data with energy := 0 },
               err := err_ok, update_us := now }, true)
  else if m.cmd = CMD_RERR ∨ m.cmd = CMD_WERR ∨ m.cmd = CMD_CALERR ∨
      m.cmd = CMD_RSTERR then
    ({ st with err := m.byteAt 2 }, true)
  else
    ({ st with err := err_ok, update_us := now }, true)

end pz004

namespace pz003

/-- Embedding of `pz003::metrics` (pzem_modbus.hpp). -/
structure metrics where
  voltage : Nat
  current : Nat
  power : Nat
  energy : Nat
  alarmh : Nat
  alarml : Nat
  deriving DecidableEq

/-- Default-constructed `pz003::metrics`. -/
def metrics.zero : metrics := ⟨0, 0, 0, 0, 0, 0⟩

/-- Embedding of `pz003::metrics::parse_rx_msg` (pzem_modbus.cpp lines
346-359). -/
def metrics.parse_rx_msg (_cur : metrics) (m : RX_msg) : Option metrics :=
  if m.cmd ≠ CMD_RIR ∨ m.byteAt 2 ≠ 0x10 then none
  else some
    { voltage := m.be16 3
      current := m.be16 5
      power := m.be16 7 + m.be16 9 * u16
      energy := m.be16 11 + m.be16 13 * u16
      alarmh := m.be16 15
      alarml := m.be16 17 }

/-- Embedding of `pz003::state` (pzem_modbus.hpp). -/
structure state where
  addr : Nat
  err : Nat
  poll_us : Int
  update_us : Int
  data : metrics
  alrmh_thrsh : Nat
  alrml_thrsh : Nat
  irange : Nat
  deriving DecidableEq

/-- `pz003::state` as default-constructed: `addr = ADDR_ANY`. -/
def state.init : state :=
  { addr := ADDR_ANY, err := 0, poll_us := 0, update_us := 0,
    data := metrics.zero, alrmh_thrsh := 0, alrml_thrsh := 0, irange := 0 }

/-- Embedding of `pz003::state::parse_rx_mgs` (pzem_modbus.cpp lines
361-426). -/
def state.parse_rx_mgs (st : state) (m : RX_msg) (skiponbad : Bool)
    (now : Int) : state × Bool :=
  if m.valid = false ∧ skiponbad then (st, false)
  else if m.addr ≠ st.addr ∧ skiponbad then (st, false)
  else if m.cmd = CMD_RIR then
    match st.data.parse_rx_msg m with
    | some d => ({ st with data := d, err := err_ok, update_us := now }, true)
    | none => ({ st with err := err_parse }, false)
  else if m.cmd = CMD_RHR then
    let st' := if m.byteAt 2 = 4 * 2 then
        { st with alrmh_thrsh := m.be16 3, alrml_thrsh := m.be16 5,
                  addr := m.byteAt 6, irange := m.byteAt 8 }
      else st
    ({ st' with err := err_ok, update_us := now }, true)
  else if m.cmd = CMD_WSR then
    let st' := if m.byteAt 3 = 0x00 then { st with alrmh_thrsh := m.be16 4 }
      else if m.byteAt 3 = 0x01 then { st with alrml_thrsh := m.be16 4 }
      else if m.byteAt 3 = 0x02 then { st with addr := m.byteAt 5 }
      else if m.byteAt 3 = 0x03 then { st with irange := m.byteAt 5 }
      else st
    ({ st' with err := err_ok, update_us := now }, true)
  else if m.cmd = CMD_RST_ENRG then
    ({ st with data := { st.data with energy := 0 },
               err := err_ok, update_us := now }, true)
  else if m.cmd = CMD_RERR ∨ m.cmd = CMD_WERR ∨ m.cmd = CMD_CALERR ∨
      m.cmd = CMD_RSTERR then
    ({ st with err := m.byteAt 2 }, true)
  else
    ({ st with err := err_ok, update_us := now }, true)

end pz003

/-! ## Meter objects and the pool (pzem_edl.hpp / pzem_edl.cpp) -/

/-- The polymorphic meter state: a `PZ004` holds a `pz004::state`, a `PZ003`
a `pz003::state`. -/
inductive PZEMDev
  | dev004 (st : pz004.state)
  | dev003 (st : pz003.state)
  deriving DecidableEq

/-- Embedding of a `PZEM` object (pzem_edl.hpp): device id, the model-specific
state, and whether an external per-meter `rx_callback` is attached. -/
structure PZEMObj where
  id : Nat
  dev : PZEMDev
  rxCb : Bool
  deriving DecidableEq

namespace PZEMObj

/-- `PZEM::getaddr` (virtual; overridden to return `pz.addr`). -/
def getaddr (p : PZEMObj) : Nat :=
  match p.dev with
  | .dev004 st => st.addr
  | .dev003 st => st.addr

/-- `PZ004::rx_sink` / `PZ003::rx_sink` (pzem_edl.cpp lines 141-146 and
174-179): parse the packet; when the parser returns `true` the external
callback runs (if one is attached).  The returned `Bool` records whether the
per-meter callback fired. -/
def rx_sink (p : PZEMObj) (m : RX_msg) (now : Int) : PZEMObj × Bool :=
  match p.dev with
  | .dev004 st =>
    let r := st.parse_rx_mgs m true now
    ({ p with dev := .dev004 r.1 }, r.2 && p.rxCb)
  | .dev003 st =>
    let r := st.parse_rx_mgs m true now
    ({ p with dev := .dev003 r.1 }, r.2 && p.rxCb)

end PZEMObj

/-- A fresh `PZ004(id, modbus_addr)` object (pzem_edl.hpp constructor):
default state with `pz.addr = modbus_addr`. -/
def mkPZ004 (id modbus_addr : Nat) : PZEMObj :=
  { id := id, dev := .dev004 { pz004.state.init with addr := modbus_addr },
    rxCb := false }

/-- A fresh `PZ003(id, modbus_addr)` object (pzem_edl.hpp constructor). -/
def mkPZ003 (id modbus_addr : Nat) : PZEMObj :=
  { id := id, dev := .dev003 { pz003.state.init with addr := modbus_addr },
    rxCb := false }

/-- `pzmbus::pzmodel_t`. -/
inductive pzmodel
  | mnone
  | pzem004v3
  | pzem003
  deriving DecidableEq

/-- Embedding of `PZPool::PZNode`: a meter bound to the id of the port it
transmits on. -/
structure PZNode where
  portId : Nat
  pzem : PZEMObj
  deriving DecidableEq

/-- Embedding of the `PZPool` fields the dispatch/registration logic reads:
the registered port ids, the meter nodes, and whether a pool-level
`rx_callback` is attached. -/
structure PZPool where
  ports : List Nat
  meters : List PZNode
  rxCb : Bool
  deriving DecidableEq

namespace PZPool

/-- Truthiness of `PZPool::port_by_id` (pzem_edl.cpp lines 320-327). -/
def port_by_id (pool : PZPool) (id : Nat) : Bool :=
  pool.ports.any (fun p => p = id)

/-- Truthiness of `PZPool::pzem_by_id` (pzem_edl.cpp lines 329-342). -/
def pzem_by_id (pool : PZPool) (id : Nat) : Bool :=
  pool.meters.any (fun n => n.pzem.id = id)

/-- The loop of `PZPool::rx_dispatcher` (pzem_edl.cpp lines 297-309):
scan `meters` for the first node whose meter address equals the reply's
address byte and whose port id is the originating port; feed the reply to
that meter's `rx_sink`, then run the pool-level callback (when attached).
Returns the updated node list and `some id` when the pool callback was
invoked with meter id `id`. -/
def dispatchLoop (m : RX_msg) (port_id : Nat) (now : Int) (cb : Bool) :
    List PZNode → List PZNode × Option Nat
  | [] => ([], none)
  | n :: rest =>
    if n.pzem.getaddr = m.addr ∧ n.portId = port_id then
      ({ n with pzem := (n.pzem.rx_sink m now).1 } :: rest,
        if cb then some n.pzem.id else none)
    else
      let r := dispatchLoop m port_id now cb rest
      (n :: r.1, r.2)

/-- Embedding of `PZPool::rx_dispatcher` (pzem_edl.cpp lines 288-313):
replies with `valid == false` are discarded before the meter scan. -/
def rx_dispatcher (pool : PZPool) (m : RX_msg) (port_id : Nat) (now : Int) :
    PZPool × Option Nat :=
  if m.valid = false then (pool, none)
  else
    let r := dispatchLoop m port_id now pool.rxCb pool.meters
    ({ pool with meters := r.1 }, r.2)

/-- Embedding of `PZPool::addPZEM(port_id, PZEM*)` (pzem_edl.cpp lines
250-276): reject out-of-range addresses and missing ports, otherwise detach
the meter's own callback (`rxCb := false`) and append the node. -/
def addPZEMObj (pool : PZPool) (port_id : Nat) (pz : PZEMObj) :
    PZPool × Bool :=
  if pz.getaddr < ADDR_MIN ∨ ADDR_MAX < pz.getaddr then (pool, false)
  else if pool.port_by_id port_id = false then (pool, false)
  else
    ({ pool with meters :=
        pool.meters ++ [{ portId := port_id, pzem := { pz with rxCb := false } }] },
      true)

/-- Embedding of `PZPool::addPZEM(port_id, pzem_id, modbus_addr, model,
descr)` (pzem_edl.cpp lines 218-247): validate the address range, the port
id and the uniqueness of `pzem_id`, construct the model-specific object and
hand it to `addPZEMObj`. -/
def addPZEM (pool : PZPool) (port_id pzem_id modbus_addr : Nat)
    (model : pzmodel) : PZPool × Bool :=
  if modbus_addr < ADDR_MIN ∨ ADDR_MAX < modbus_addr then (pool, false)
  else if pool.port_by_id port_id = false ∨ pool.pzem_by_id pzem_id then
    (pool, false)
  else
    match model with
    | .pzem004v3 => pool.addPZEMObj port_id (mkPZ004 pzem_id modbus_addr)
    | .pzem003 => pool.addPZEMObj port_id (mkPZ003 pzem_id modbus_addr)
    | .mnone => (pool, false)

end PZPool

/-! ## Transmit queue (msgq.cpp, `UartQ::txenqueue`) -/

/-- What became of a `TX_msg*` handed to `txenqueue`: `noop` when the pointer
was null (nothing owned), `destroyed` when the call `delete`d it, `queued`
when it entered the transmit queue. -/
inductive MsgFate
  | noop
  | destroyed
  | queued
  deriving DecidableEq

/-- The transmit-queue state of a `UartQ`: `tx_msg_q` is `none` when the
queue does not exist (port stopped / never started), otherwise the FIFO
content; `depth` is the creation depth (`tx_msg_q_DEPTH = 8` in msgq.hpp). -/
structure TXQueueState where
  depth : Nat
  tx_msg_q : Option (List TX_msg)
  deriving DecidableEq

/-- Embedding of `UartQ::txenqueue` (msgq.cpp lines 117-137): null messages
are rejected outright; with no queue the message is deleted and `false`
returned; `xQueueSendToBack` with zero timeout succeeds iff the FIFO is not
full, and on failure the message is deleted. -/
def txenqueue (s : TXQueueState) (msg : Option TX_msg) :
    Bool × TXQueueState × MsgFate :=
  match msg with
  | none => (false, s, .noop)
  | some m =>
    match s.tx_msg_q with
    | none => (false, s, .destroyed)
    | some l =>
      if l.length < s.depth then
        (true, { s with tx_msg_q := some (l ++ [m]) }, .queued)
      else
        (false, s, .destroyed)

/-! ## TimeSeries and averaging (timeseries.hpp / timeseries.cpp) -/

/-- The virtual interface `AveragingFunction<T>` (timeseries.hpp): the
averager state has type `A`, with the four virtual operations. -/
structure AvgOps (A T : Type) where
  apush : A → T → A
  aget : A → T
  areset : A → A
  acnt : A → Nat

/-- Embedding of `TimeSeries<T>` (timeseries.hpp): the underlying ring
buffer plus the last-update time mark `tstamp`, the sampling `interval`
(both `uint32_t`) and the optional averager instance `_avg`. -/
structure TimeSeries (T A : Type) where
  buf : RingBuff T
  tstamp : Nat
  interval : Nat
  avg : Option A

namespace TimeSeries

/-- `TimeSeries<T>::clear(uint32_t t)` (timeseries.hpp lines 652-657):
set the time mark, clear the ring buffer, reset the averager if present. -/
def clear (ops : AvgOps A T) (ts : TimeSeries T A) (t : Nat) :
    TimeSeries T A :=
  { ts with tstamp := t, buf := ts.buf.clear, avg := ts.avg.map ops.areset }

/-- The gap-filling `do { push_back(val); time -= interval; } while (time >
interval);` loop of `TimeSeries<T>::push`.  `push` only enters the loop with
`interval ≥ 1` (otherwise the preceding `time / interval` is already
undefined in C++) and `time ≥ 2 * interval`, and the loop keeps `time >
interval` before every subtraction, so the `uint32_t` subtraction never
wraps and Nat subtraction is exact; the `0 < interval` guard only makes the
Lean function total. -/
def gapFill (buf : RingBuff T) (val : T) (time interval : Nat) :
    RingBuff T :=
  let buf' := buf.push_back val
  let t' := time - interval
  if h : 0 < interval ∧ interval < t' then gapFill buf' val t' interval
  else buf'
termination_by time
decreasing_by
  simp only [t'] at h
  omega

/-- Embedding of `TimeSeries<T>::push(const T& val, uint32_t time)`
(timeseries.hpp lines 659-693).  All `uint32_t` arithmetic (`time -=
tstamp`, `2 * interval`) is reduced mod `2^32`. -/
def push (ops : AvgOps A T) (ts : TimeSeries T A) (val : T) (time : Nat) :
    TimeSeries T A :=
  let t := time
  let d := sub32 time ts.tstamp
  if d < ts.interval then
    { ts with avg := ts.avg.map (fun a => ops.apush a val) }
  else
    let ts1 :=
      if 2 * ts.interval % u32 ≤ d then
        if ts.buf.capacity < d / ts.interval then ts.clear ops t
        else { ts with buf := gapFill ts.buf val d ts.interval }
      else ts
    let ts2 :=
      match ts1.avg with
      | some a =>
        if ops.acnt a ≠ 0 then
          let a1 := ops.apush a val
          { ts1 with buf := ts1.buf.push_back (ops.aget a1),
                     avg := some (ops.apush (ops.areset a1) val) }
        else { ts1 with buf := ts1.buf.push_back val }
      | none => { ts1 with buf := ts1.buf.push_back val }
    { ts2 with tstamp := t }

end TimeSeries

/-- Embedding of the accumulator fields of `MeanAveragePZ004`
(timeseries.hpp / timeseries.cpp); every field is C++ `unsigned`
(32-bit). -/
structure MeanAveragePZ004 where
  v : Nat
  c : Nat
  p : Nat
  e : Nat
  f : Nat
  pf : Nat
  cnt : Nat
  deriving DecidableEq

namespace MeanAveragePZ004

/-- Zero-initialised `MeanAveragePZ004`. -/
def zero : MeanAveragePZ004 := ⟨0, 0, 0, 0, 0, 0, 0⟩

/-- `MeanAveragePZ004::push` (timeseries.cpp lines 15-23): sums every
numeric field except `e`, which is assigned the last energy value. -/
def mpush (s : MeanAveragePZ004) (m : pz004.metrics) : MeanAveragePZ004 :=
  { v := (s.v + m.voltage) % u32
    c := (s.c + m.current) % u32
    p := (s.p + m.power) % u32
    e := m.energy % u32
    f := (s.f + m.freq) % u32
    pf := (s.pf + m.pf) % u32
    cnt := (s.cnt + 1) % u32 }

/-- `MeanAveragePZ004::get` (timeseries.cpp lines 25-34): integer-divide the
accumulators by the count and truncate into the field widths of
`pz004::metrics`; `energy` and the default-initialised `alarm` are
assigned. -/
def mget (s : MeanAveragePZ004) : pz004.metrics :=
  { voltage := s.v / s.cnt % u16
    current := s.c / s.cnt % u32
    power := s.p / s.cnt % u32
    energy := s.e % u32
    freq := s.f / s.cnt % u16
    pf := s.pf / s.cnt % u16
    alarm := 0 }

/-- `MeanAveragePZ004::reset` (timeseries.cpp lines 36-38). -/
def mreset (_s : MeanAveragePZ004) : MeanAveragePZ004 := zero

/-- The `AveragingFunction<pz004::metrics>` virtual table of
`MeanAveragePZ004`. -/
def ops : AvgOps MeanAveragePZ004 pz004.metrics :=
  { apush := mpush, aget := mget, areset := mreset, acnt := fun s => s.cnt }

end MeanAveragePZ004

/-! ## Frame codec (pzem_modbus.cpp) and CRC -/

/-- Modelled from the spec: one bit-step of CRC-16/MODBUS.  The
implementation of `modbus::crc16` (declared in modbus_crc16.h) is not part
of the sources under src/; §4.1 of the spec fixes it as the standard
MODBUS CRC-16 with reflected polynomial `0xA001`, initial value `0xFFFF`
and no final XOR. -/
def crc16round (crc : Nat) : Nat :=
  if crc % 2 = 1 then (crc / 2) ^^^ 0xA001 else crc / 2

/-- Modelled from the spec: fold one byte into the CRC-16/MODBUS state:
XOR the byte in, then eight shift/conditional-XOR rounds. -/
def crc16byte (crc b : Nat) : Nat :=
  crc16round (crc16round (crc16round (crc16round
    (crc16round (crc16round (crc16round (crc16round (crc ^^^ b % 256))))))))

/-- Modelled from the spec: `modbus::crc16(data, size)` over a byte list,
initial value `0xFFFF`. -/
def crc16 (bs : List Nat) : Nat := bs.foldl crc16byte 0xFFFF

/-- Modelled from the spec: `modbus::checkcrc16(buf, len)` re-runs the CRC
over `buf[..len-2]` and compares it with the trailing little-endian
16-bit word. -/
def checkcrc16 (bs : List Nat) : Bool :=
  2 ≤ bs.length ∧
    crc16 (bs.take (bs.length - 2)) =
      bs.getD (bs.length - 2) 0 % 256 + 256 * (bs.getD (bs.length - 1) 0 % 256)

/-- Modelled from the spec: `modbus::setcrc16(data, len)` computes the CRC
over the first `len - 2` bytes and stores it little-endian in the last two
positions.  Here the frame is built directly as `body ++ crc`. -/
def setcrc16 (body : List Nat) : List Nat :=
  body ++ [crc16 body % 256, crc16 body / 256 % 256]

/-- Embedding of `pzmbus::create_msg` (pzem_modbus.cpp lines 22-38): an
8-byte frame `slave_addr, cmd, reg_addr_be, value_be` with the CRC appended
by `setcrc16`.  The `uint8_t`/`uint16_t` parameters are reduced into their
widths. -/
def create_msg (cmd reg_addr value slave_addr : Nat) (w4r : Bool) : TX_msg :=
  { data := setcrc16
      [slave_addr % 256, cmd % 256,
       reg_addr % u16 / 256, reg_addr % 256,
       value % u16 / 256, value % 256]
    w4rx := w4r }

/-- Embedding of `pzmbus::cmd_set_modbus_addr` (pzem_modbus.cpp lines
40-45): an out-of-range `new_addr` is replaced by `current_addr`, then a
write-single-register frame for `PZ004_RHR_MODBUS_ADDR = 0x0002` is
built. -/
def cmd_set_modbus_addr (new_addr current_addr : Nat) : TX_msg :=
  let na := if new_addr < ADDR_MIN ∨ ADDR_ANY < new_addr then current_addr
    else new_addr
  create_msg CMD_WSR 0x0002 na current_addr true

/-! ## Theorems -/

theorem rb_push_back_capacity {T : Type} (rb : RingBuff T) (v : T) :
    (rb.push_back v).capacity = rb.capacity := by
  simp only [RingBuff.push_back]
  split <;> rfl

theorem rb_push_back_data {T : Type} (rb : RingBuff T) (v : T) :
    (rb.push_back v).data = fun i => if i = rb.tail then v else rb.data i := by
  simp only [RingBuff.push_back]
  split <;> rfl

theorem rb_push_back_size {T : Type} (rb : RingBuff T) (v : T)
    (hs : rb.size ≤ rb.capacity) :
    (rb.push_back v).size = min (rb.size + 1) rb.capacity := by
  simp only [RingBuff.push_back]
  split
  · simp only
    omega
  · simp only
    omega

theorem rb_push_back_head {T : Type} (rb : RingBuff T) (v : T)
    (hh : rb.head < rb.capacity) :
    (rb.push_back v).head =
      if rb.size = rb.capacity then (rb.head + 1) % rb.capacity
      else rb.head := by
  simp only [RingBuff.push_back]
  by_cases hfull : rb.size = rb.capacity
  · rw [if_neg (by omega : ¬ rb.size ≠ rb.capacity), if_pos hfull]
    show (if rb.head + 1 = rb.capacity then 0 else rb.head + 1)
        = (rb.head + 1) % rb.capacity
    by_cases he : rb.head + 1 = rb.capacity
    · rw [if_pos he, he, Nat.mod_self]
    · rw [if_neg he, Nat.mod_eq_of_lt (by omega)]
  · rw [if_pos hfull, if_neg hfull]

theorem rb_atIdx_ofNat {T : Type} (rb : RingBuff T) (k : Nat)
    (hk : k < rb.size) :
    rb.atIdx (k : Int) = some ((rb.head + k) % rb.capacity) := by
  unfold RingBuff.atIdx
  have hs : ¬ rb.size = 0 := by omega
  rw [if_neg hs]
  have h1 : Int.tmod (k : Int) (rb.size : Int) = (k : Int) := by
    rw [← Int.ofNat_tmod, Nat.mod_eq_of_lt hk]
  simp only [h1]
  have h2 : ¬ ((k : Int) < 0) := by omega
  rw [if_neg h2]
  simp

theorem rb_iterGet_newest {T : Type} (rb : RingBuff T) (v : T)
    (hh : rb.head < rb.capacity) (hs : rb.size ≤ rb.capacity) :
    (rb.push_back v).iterGet (((rb.push_back v).size : Int) - 1) = some v := by
  have hcap : 0 < rb.capacity := Nat.lt_of_le_of_lt (Nat.zero_le _) hh
  have hsz := rb_push_back_size rb v hs
  have hc := rb_push_back_capacity rb v
  have hd := rb_push_back_data rb v
  have hhd := rb_push_back_head rb v hh
  have h1 : 1 ≤ (rb.push_back v).size := by omega
  have hNA : ((((rb.push_back v).size : Int) - 1)).natAbs
      = (rb.push_back v).size - 1 := by omega
  unfold RingBuff.iterGet RingBuff.atVal
  rw [hNA, rb_atIdx_ofNat _ _ (by omega)]
  have htl : ((rb.push_back v).head + ((rb.push_back v).size - 1))
      % (rb.push_back v).capacity = rb.tail := by
    rw [hc, hhd, hsz]
    unfold RingBuff.tail
    by_cases hfull : rb.size = rb.capacity
    · rw [if_pos hfull]
      have e2 : min (rb.size + 1) rb.capacity - 1 = rb.capacity - 1 := by omega
      rw [e2, Nat.mod_add_mod]
      have e3 : rb.head + 1 + (rb.capacity - 1) = rb.head + rb.capacity := by
        omega
      rw [e3, hfull]
    · rw [if_neg hfull]
      have e2 : min (rb.size + 1) rb.capacity - 1 = rb.size := by omega
      rw [e2]
  rw [htl, hd]
  simp

theorem rb_pushN_inv {T : Type} (vs : List T) (rb : RingBuff T)
    (hh : rb.head < rb.capacity) (hs : rb.size ≤ rb.capacity) :
    (rb.pushN vs).capacity = rb.capacity
    ∧ (rb.pushN vs).head < rb.capacity
    ∧ (rb.pushN vs).size = min (rb.size + vs.length) rb.capacity := by
  induction vs generalizing rb with
  | nil =>
    refine ⟨rfl, hh, ?_⟩
    simp only [RingBuff.pushN, List.foldl_nil, List.length_nil]
    omega
  | cons v vs ih =>
    have hcap : 0 < rb.capacity := Nat.lt_of_le_of_lt (Nat.zero_le _) hh
    have hsz := rb_push_back_size rb v hs
    have hc := rb_push_back_capacity rb v
    have hhd := rb_push_back_head rb v hh
    have hh' : (rb.push_back v).head < (rb.push_back v).capacity := by
      rw [hc, hhd]
      split
      · exact Nat.mod_lt _ hcap
      · exact hh
    have hs' : (rb.push_back v).size ≤ (rb.push_back v).capacity := by omega
    have := ih (rb.push_back v) hh' hs'
    have hstep : rb.pushN (v :: vs) = (rb.push_back v).pushN vs := rfl
    rw [hstep]
    refine ⟨by rw [this.1, hc], by rw [← hc]; exact this.2.1, ?_⟩
    rw [this.2.2, hc, hsz]
    simp only [List.length_cons]
    omega

theorem tmod_fixup (a : Int) (s : Nat) (hs : s ≠ 0) :
    (if Int.tmod a (s : Int) < 0 then Int.tmod a (s : Int) + (s : Int)
      else Int.tmod a (s : Int)) = a % (s : Int) := by
  have hpos : (0 : Int) < (s : Int) := by omega
  have hmod : (Int.tmod a (s : Int)) % (s : Int) = a % (s : Int) := by
    have h0 : Int.tmod a (s : Int) = a + (s : Int) * (-(a.tdiv (s : Int))) := by
      rw [Int.tmod_def]
      ring
    rw [h0, Int.add_mul_emod_self_left]
  have hub : Int.tmod a (s : Int) < (s : Int) := Int.tmod_lt_of_pos a hpos
  have hlb : -(s : Int) < Int.tmod a (s : Int) := by
    cases a with
    | ofNat n =>
      have h0 : (0 : Int) ≤ Int.tmod (Int.ofNat n) (s : Int) :=
        Int.tmod_nonneg _ (Int.ofNat_nonneg n)
      omega
    | negSucc n =>
      have he : Int.tmod (Int.negSucc n) (s : Int)
          = -(((n + 1) % s : Nat) : Int) := rfl
      have h2 : (n + 1) % s < s := Nat.mod_lt _ (by omega)
      rw [he]
      omega
  by_cases hneg : Int.tmod a (s : Int) < 0
  · rw [if_pos hneg]
    have h3 : (Int.tmod a (s : Int) + (s : Int)) % (s : Int) = a % (s : Int) := by
      have := Int.add_mul_emod_self_left (Int.tmod a (s : Int)) (s : Int) 1
      rw [Int.mul_one] at this
      rw [this, hmod]
    rw [← h3, Int.emod_eq_of_lt (by omega) (by omega)]
  · rw [if_neg hneg]
    rw [← hmod, Int.emod_eq_of_lt (by omega) hub]

/-- Claim C2: for every ring buffer of capacity `C` (allocation successful),
after `N` `push_back` operations the size is `min N C`, the element reached
by dereferencing `cend - 1` is the most recently pushed value, and once the
buffer is full each further `push_back` overwrites the oldest stored element
(the cell at physical index `head`, which is where `at(0)` points) while
advancing `head` by one with wrap-around. -/
theorem pzem_C2_ringbuff_pushN (T : Type) (C : Nat) (hC : 0 < C)
    (store : Nat → T) (vs : List T) :
    ((RingBuff.fresh C store).pushN vs).size = min vs.length C
    ∧ (∀ (vs' : List T) (v : T), vs = vs' ++ [v] →
        ((RingBuff.fresh C store).pushN vs).iterGet
          ((((RingBuff.fresh C store).pushN vs).size : Int) - 1) = some v)
    ∧ (∀ (rb : RingBuff T) (v : T), rb.head < rb.capacity →
        rb.size = rb.capacity →
        rb.atIdx 0 = some rb.head
        ∧ (rb.push_back v).head = (rb.head + 1) % rb.capacity
        ∧ (rb.push_back v).size = rb.capacity
        ∧ (rb.push_back v).data rb.head = v) := by
  have hfresh := rb_pushN_inv vs (RingBuff.fresh C store) hC (Nat.zero_le _)
  refine ⟨?_, ?_, ?_⟩
  · rw [hfresh.2.2]
    simp [RingBuff.fresh]
  · intro vs' v hv
    subst hv
    have hsplit : (RingBuff.fresh C store).pushN (vs' ++ [v])
        = ((RingBuff.fresh C store).pushN vs').push_back v := by
      unfold RingBuff.pushN
      rw [List.foldl_append]
      rfl
    rw [hsplit]
    have hinv := rb_pushN_inv vs' (RingBuff.fresh C store) hC (Nat.zero_le _)
    have hc1 : (RingBuff.fresh C store).capacity = C := rfl
    have hs1 : (RingBuff.fresh C store).size = 0 := rfl
    refine rb_iterGet_newest _ v ?_ ?_
    · rw [hinv.1]
      exact hinv.2.1
    · rw [hinv.1, hinv.2.2, hc1, hs1]
      omega
  · intro rb v hh hfull
    have hcap : 0 < rb.capacity := by omega
    refine ⟨?_, ?_, ?_, ?_⟩
    · have h0 : rb.atIdx ((0 : Nat) : Int) = some ((rb.head + 0) % rb.capacity) :=
        rb_atIdx_ofNat rb 0 (by omega)
      simpa [Nat.mod_eq_of_lt hh] using h0
    · rw [rb_push_back_head rb v hh, if_pos hfull]
    · rw [rb_push_back_size rb v (by omega), hfull]
      omega
    · rw [rb_push_back_data rb v]
      have htail : rb.tail = rb.head := by
        unfold RingBuff.tail
        rw [hfull, Nat.add_mod_right, Nat.mod_eq_of_lt hh]
      simp [htail]

/-- Witness for C2: capacity 2, pushes `[5, 6, 7]`: size is `min 3 2 = 2`,
the newest element (at `cend - 1`) is `7`, and the third push overwrote the
cell the oldest element occupied. -/
theorem pzem_C2_witness :
    ((RingBuff.fresh 2 (fun _ => (0 : Nat))).pushN [5, 6, 7]).size = min 3 2
    ∧ ((RingBuff.fresh 2 (fun _ => (0 : Nat))).pushN [5, 6, 7]).iterGet
        ((((RingBuff.fresh 2 (fun _ => (0 : Nat))).pushN [5, 6, 7]).size : Int)
          - 1) = some 7 := by
  have h := pzem_C2_ringbuff_pushN Nat 2 (by decide) (fun _ => 0) [5, 6, 7]
  exact ⟨h.1, h.2.1 [5, 6] 7 rfl⟩

/-- Claim C10: `RingBuff<T>::at` is total and in-bounds: with `size = 0` it
returns the null pointer; otherwise, for every integer offset, it reduces
the offset modulo `size` — mapping negative remainders into range, i.e.
producing the Euclidean remainder — and yields a pointer to physical index
`(head + reduced) % capacity`, which lies inside the allocated storage. -/
theorem pzem_C10_ringbuff_at_total (T : Type) (rb : RingBuff T) (offset : Int)
    (hh : rb.head < rb.capacity) (hs : rb.size ≤ rb.capacity) :
    (rb.size = 0 → rb.atVal offset = none)
    ∧ (rb.size ≠ 0 →
        rb.atIdx offset =
          some ((rb.head + (offset % (rb.size : Int)).toNat) % rb.capacity)
        ∧ ∀ i, rb.atIdx offset = some i →
            i < rb.capacity ∧ rb.atVal offset = some (rb.data i)) := by
  constructor
  · intro h0
    simp [RingBuff.atVal, RingBuff.atIdx, h0]
  · intro hnz
    have hcap : 0 < rb.capacity := by omega
    have hidx : rb.atIdx offset =
        some ((rb.head + (offset % (rb.size : Int)).toNat) % rb.capacity) := by
      simp only [RingBuff.atIdx, if_neg hnz]
      rw [tmod_fixup offset rb.size hnz]
    refine ⟨hidx, ?_⟩
    intro i hi
    rw [hidx] at hi
    have hival : i = (rb.head + (offset % (rb.size : Int)).toNat) % rb.capacity := by
      injection hi with h'
      exact h'.symm
    constructor
    · rw [hival]
      exact Nat.mod_lt _ hcap
    · unfold RingBuff.atVal
      rw [hidx, hival]
      rfl

/-- Witness for C10: a buffer of capacity 3 holding 2 elements, probed at
the negative offset `-5`: `at` returns the in-bounds physical index
`(1 + (-5 mod 2)) % 3 = 2`. -/
theorem pzem_C10_witness :
    (RingBuff.atIdx ⟨3, 1, 2, fun _ => (0 : Nat)⟩ (-5) = some 2)
    ∧ (RingBuff.atIdx ⟨3, 1, 0, fun _ => (0 : Nat)⟩ (-5)).isNone = true := by
  have h := pzem_C10_ringbuff_at_total Nat ⟨3, 1, 2, fun _ => 0⟩ (-5)
    (by decide) (by decide)
  have h2 := pzem_C10_ringbuff_at_total Nat ⟨3, 1, 0, fun _ => 0⟩ (-5)
    (by decide) (by decide)
  constructor
  · have := (h.2 (by decide)).1
    rw [this]
    decide
  · have := h2.1 rfl
    simp [RingBuff.atVal] at this ⊢
    decide

/-- Claim C4: for every non-null `TX_msg` handed to `UartQ::txenqueue`: if
the transmit queue does not exist (port stopped) or is full, the call
returns `false` and the message is destroyed; otherwise the message is
appended at the back of the queue and the call returns `true`; in every
case the call takes ownership (the message ends up queued or destroyed,
never leaked). -/
theorem pzem_C4_txenqueue (s : TXQueueState) (m : TX_msg) :
    (s.tx_msg_q = none → txenqueue s (some m) = (false, s, MsgFate.destroyed))
    ∧ (∀ l, s.tx_msg_q = some l → s.depth ≤ l.length →
        txenqueue s (some m) = (false, s, MsgFate.destroyed))
    ∧ (∀ l, s.tx_msg_q = some l → l.length < s.depth →
        txenqueue s (some m)
          = (true, { s with tx_msg_q := some (l ++ [m]) }, MsgFate.queued))
    ∧ ((txenqueue s (some m)).2.2 = MsgFate.destroyed
        ∨ (txenqueue s (some m)).2.2 = MsgFate.queued) := by
  refine ⟨?_, ?_, ?_, ?_⟩
  · intro h
    simp only [txenqueue, h]
  · intro l hl hfull
    simp only [txenqueue, hl]
    rw [if_neg (by omega)]
  · intro l hl hroom
    simp only [txenqueue, hl]
    rw [if_pos hroom]
  · rcases hq : s.tx_msg_q with _ | l
    · simp [txenqueue, hq]
    · simp only [txenqueue, hq]
      by_cases hroom : l.length < s.depth
      · rw [if_pos hroom]
        right
        rfl
      · rw [if_neg hroom]
        left
        rfl

/-- Witness for C4: a running port with an empty depth-8 queue accepts the
message; a stopped port (no queue) destroys it and returns false. -/
theorem pzem_C4_witness :
    txenqueue ⟨8, some []⟩ (some ⟨[1, 2], true⟩)
      = (true, ⟨8, some [⟨[1, 2], true⟩]⟩, MsgFate.queued)
    ∧ txenqueue ⟨8, none⟩ (some ⟨[1, 2], true⟩)
      = (false, ⟨8, none⟩, MsgFate.destroyed) := by
  have h1 := (pzem_C4_txenqueue ⟨8, some []⟩ ⟨[1, 2], true⟩).2.2.1
    [] rfl (by decide)
  have h2 := (pzem_C4_txenqueue ⟨8, none⟩ ⟨[1, 2], true⟩).1 rfl
  exact ⟨h1, h2⟩

/-- Claim C3: a reply that passes the validity and address checks and whose
function byte is one of the error echoes `0x84, 0x86, 0xC1, 0xC2` makes
`pz004::state::parse_rx_mgs` record the exception code from the third reply
byte into `err` and return `true`, leaving the metrics and the last-update
timestamp unchanged; since the parser returns `true`, `PZ004::rx_sink`
still fires the per-meter user callback. -/
theorem pzem_C3_error_echo (st : pz004.state) (m : RX_msg) (now : Int)
    (hv : m.valid = true) (ha : m.addr = st.addr)
    (hc : m.cmd = CMD_RERR ∨ m.cmd = CMD_WERR ∨ m.cmd = CMD_CALERR ∨
      m.cmd = CMD_RSTERR) :
    st.parse_rx_mgs m true now = ({ st with err := m.byteAt 2 }, true)
    ∧ (st.parse_rx_mgs m true now).1.data = st.data
    ∧ (st.parse_rx_mgs m true now).1.update_us = st.update_us
    ∧ (st.parse_rx_mgs m true now).2 = true
    ∧ ∀ id : Nat,
        ((PZEMObj.mk id (PZEMDev.dev004 st) true).rx_sink m now).2 = true := by
  have hmain : st.parse_rx_mgs m true now = ({ st with err := m.byteAt 2 }, true) := by
    rcases hc with h | h | h | h <;>
      simp [pz004.state.parse_rx_mgs, hv, ha, h, CMD_RIR, CMD_RHR, CMD_WSR,
        CMD_RST_ENRG, CMD_RERR, CMD_WERR, CMD_CALERR, CMD_RSTERR]
  refine ⟨hmain, by rw [hmain], by rw [hmain], by rw [hmain], ?_⟩
  intro id
  simp only [PZEMObj.rx_sink, hmain]
  rfl

/-- Witness for C3: the default-constructed PZ004 state receiving a valid
read-error echo `F8 84 03 (crc)` records exception code 3 and returns
success, with the callback firing. -/
theorem pzem_C3_witness :
    pz004.state.parse_rx_mgs pz004.state.init ⟨[0xF8, 0x84, 0x03], true⟩ true 0
      = ({ pz004.state.init with err := 3 }, true)
    ∧ ((PZEMObj.mk 1 (PZEMDev.dev004 pz004.state.init) true).rx_sink
        ⟨[0xF8, 0x84, 0x03], true⟩ 0).2 = true := by
  have h := pzem_C3_error_echo pz004.state.init ⟨[0xF8, 0x84, 0x03], true⟩ 0
    rfl (by decide) (Or.inl (by decide))
  exact ⟨h.1, h.2.2.2.2 1⟩

theorem crc16round_lt (c : Nat) (h : c < 65536) : crc16round c < 65536 := by
  unfold crc16round
  split
  · exact Nat.xor_lt_two_pow (n := 16) (by omega) (by decide)
  · omega

theorem crc16byte_lt (c b : Nat) (h : c < 65536) : crc16byte c b < 65536 := by
  unfold crc16byte
  have h0 : c ^^^ b % 256 < 65536 :=
    Nat.xor_lt_two_pow (n := 16) h (by omega)
  exact crc16round_lt _ (crc16round_lt _ (crc16round_lt _ (crc16round_lt _
    (crc16round_lt _ (crc16round_lt _ (crc16round_lt _ (crc16round_lt _ h0)))))))

theorem crc16_lt (bs : List Nat) : crc16 bs < 65536 := by
  unfold crc16
  have aux : ∀ (l : List Nat) (c : Nat), c < 65536 →
      l.foldl crc16byte c < 65536 := by
    intro l
    induction l with
    | nil => intro c hc; simpa using hc
    | cons b l ih =>
      intro c hc
      simpa using ih (crc16byte c b) (crc16byte_lt c b hc)
  exact aux bs 0xFFFF (by decide)

theorem checkcrc16_setcrc (body : List Nat) :
    checkcrc16 (setcrc16 body) = true := by
  have hlen : (setcrc16 body).length = body.length + 2 := by
    simp [setcrc16]
  have htake : (setcrc16 body).take body.length = body := by
    simp only [setcrc16]
    exact List.take_left' rfl
  have hget1 : (setcrc16 body).getD body.length 0 = crc16 body % 256 := by
    simp only [setcrc16, List.getD_eq_getElem?_getD,
      List.getElem?_append_right (Nat.le_refl body.length)]
    simp
  have hget2 : (setcrc16 body).getD (body.length + 1) 0
      = crc16 body / 256 % 256 := by
    simp only [setcrc16, List.getD_eq_getElem?_getD,
      List.getElem?_append_right (by omega : body.length ≤ body.length + 1)]
    simp
  have hbound := crc16_lt body
  simp only [checkcrc16, decide_eq_true_eq, hlen]
  rw [show body.length + 2 - 2 = body.length by omega,
    show body.length + 2 - 1 = body.length + 1 by omega,
    htake, hget1, hget2]
  refine ⟨by omega, by omega⟩

/-- Claim C8: for every `current_addr` and every `new_addr` outside the
allowed slave-address range (`new_addr < ADDR_MIN` or `new_addr >
ADDR_ANY`; in particular `0x00` and `0xFF`), `cmd_set_modbus_addr` builds a
well-formed 8-byte write-single-register frame for the MODBUS-address
holding register `0x0002` whose big-endian value field equals
`current_addr` — a no-op echo of the current address, with a valid trailing
CRC, rather than a malformed write. -/
theorem pzem_C8_set_modbus_addr (new_addr current_addr : Nat)
    (hcur : current_addr < 256)
    (hout : new_addr < ADDR_MIN ∨ ADDR_ANY < new_addr) :
    (cmd_set_modbus_addr new_addr current_addr).data
      = setcrc16 [current_addr, CMD_WSR, 0x00, 0x02, 0x00, current_addr]
    ∧ (cmd_set_modbus_addr new_addr current_addr).data.length = 8
    ∧ (cmd_set_modbus_addr new_addr current_addr).data.getD 4 0 * 256
        + (cmd_set_modbus_addr new_addr current_addr).data.getD 5 0
        = current_addr
    ∧ checkcrc16 (cmd_set_modbus_addr new_addr current_addr).data = true
    ∧ (cmd_set_modbus_addr new_addr current_addr).w4rx = true := by
  have hna : cmd_set_modbus_addr new_addr current_addr
      = create_msg CMD_WSR 0x0002 current_addr current_addr true := by
    unfold cmd_set_modbus_addr
    rw [if_pos hout]
  have hcur16 : current_addr % u16 = current_addr := by
    unfold u16
    omega
  have hcur256 : current_addr % 256 = current_addr := by omega
  have hdiv : current_addr / 256 = 0 := Nat.div_eq_of_lt hcur
  have hdata : (cmd_set_modbus_addr new_addr current_addr).data
      = setcrc16 [current_addr, CMD_WSR, 0x00, 0x02, 0x00, current_addr] := by
    rw [hna]
    unfold create_msg
    simp only [hcur16, hcur256, hdiv]
    norm_num [CMD_WSR, u16]
  refine ⟨hdata, ?_, ?_, ?_, ?_⟩
  · rw [hdata]
    simp [setcrc16]
  · rw [hdata]
    simp only [setcrc16]
    rw [List.getD_eq_getElem?_getD, List.getElem?_append_left (by simp),
      List.getD_eq_getElem?_getD, List.getElem?_append_left (by simp)]
    simp
  · rw [hdata]
    exact checkcrc16_setcrc _
  · rw [hna]
    rfl

/-- Witness for C8: the boundary inputs `new_addr = 0x00` and
`new_addr = 0xFF` with `current_addr = 0x42` both produce the no-op frame
writing `0x42` back, with a correct CRC. -/
theorem pzem_C8_witness :
    ((cmd_set_modbus_addr 0x00 0x42).data.getD 4 0 * 256
        + (cmd_set_modbus_addr 0x00 0x42).data.getD 5 0 = 0x42
      ∧ checkcrc16 (cmd_set_modbus_addr 0x00 0x42).data = true)
    ∧ ((cmd_set_modbus_addr 0xFF 0x42).data.getD 4 0 * 256
        + (cmd_set_modbus_addr 0xFF 0x42).data.getD 5 0 = 0x42
      ∧ checkcrc16 (cmd_set_modbus_addr 0xFF 0x42).data = true) := by
  have h1 := pzem_C8_set_modbus_addr 0x00 0x42 (by decide)
    (Or.inl (by decide))
  have h2 := pzem_C8_set_modbus_addr 0xFF 0x42 (by decide)
    (Or.inr (by decide))
  exact ⟨⟨h1.2.2.1, h1.2.2.2.1⟩, ⟨h2.2.2.1, h2.2.2.2.1⟩⟩

theorem dispatchLoop_no_match (m : RX_msg) (port_id : Nat) (now : Int)
    (cb : Bool) (meters : List PZNode)
    (h : ∀ n ∈ meters, ¬ (n.pzem.getaddr = m.addr ∧ n.portId = port_id)) :
    PZPool.dispatchLoop m port_id now cb meters = (meters, none) := by
  induction meters with
  | nil => rfl
  | cons hd tl ih =>
    have hhd := h hd (List.mem_cons_self hd tl)
    have htl := ih (fun n hn => h n (List.mem_cons_of_mem hd hn))
    simp only [PZPool.dispatchLoop, if_neg hhd, htl]

theorem dispatchLoop_unique_match (m : RX_msg) (port_id : Nat) (now : Int)
    (cb : Bool) (meters : List PZNode) (k : Nat) (n : PZNode)
    (hk : meters[k]? = some n)
    (hm : n.pzem.getaddr = m.addr ∧ n.portId = port_id)
    (huniq : ∀ j nj, meters[j]? = some nj →
      (nj.pzem.getaddr = m.addr ∧ nj.portId = port_id) → j = k) :
    PZPool.dispatchLoop m port_id now cb meters
      = (meters.set k { n with pzem := (n.pzem.rx_sink m now).1 },
          if cb then some n.pzem.id else none) := by
  induction meters generalizing k with
  | nil => simp at hk
  | cons hd tl ih =>
    by_cases hhd : hd.pzem.getaddr = m.addr ∧ hd.portId = port_id
    · have hk0 : k = 0 := (huniq 0 hd (by simp) hhd).symm
      subst hk0
      have hn : n = hd := by
        simp only [List.getElem?_cons_zero] at hk
        exact (Option.some_inj.mp hk).symm
      subst hn
      simp only [PZPool.dispatchLoop, if_pos hhd, List.set_cons_zero]
    · have hk0 : k ≠ 0 := by
        intro h0
        subst h0
        simp only [List.getElem?_cons_zero] at hk
        exact hhd ((Option.some_inj.mp hk) ▸ hm)
      obtain ⟨k', rfl⟩ : ∃ k', k = k' + 1 := ⟨k - 1, by omega⟩
      simp only [List.getElem?_cons_succ] at hk
      have huniq' : ∀ j nj, tl[j]? = some nj →
          (nj.pzem.getaddr = m.addr ∧ nj.portId = port_id) → j = k' := by
        intro j nj hj hmj
        have := huniq (j + 1) nj (by simpa using hj) hmj
        omega
      have := ih k' hk huniq'
      simp only [PZPool.dispatchLoop, if_neg hhd, this, List.set_cons_succ]

/-- Claim C1: `PZPool::rx_dispatcher` discards invalid replies without
touching any meter or firing any callback; when the reply is valid and
exactly one registered meter matches `(port_id, slave_addr)`, that meter's
`rx_sink` parses the reply and the pool-level user callback (when attached)
is then invoked with that meter's id; when no meter matches, the reply is
dropped with no state change and no callback. -/
theorem pzem_C1_rx_dispatcher (pool : PZPool) (m : RX_msg) (port_id : Nat)
    (now : Int) :
    (m.valid = false → pool.rx_dispatcher m port_id now = (pool, none))
    ∧ (m.valid = true →
        ∀ (k : Nat) (n : PZNode), pool.meters[k]? = some n →
          (n.pzem.getaddr = m.addr ∧ n.portId = port_id) →
          (∀ j nj, pool.meters[j]? = some nj →
            (nj.pzem.getaddr = m.addr ∧ nj.portId = port_id) → j = k) →
          pool.rx_dispatcher m port_id now
            = ({ pool with meters :=
                  pool.meters.set k { n with pzem := (n.pzem.rx_sink m now).1 } },
                if pool.rxCb then some n.pzem.id else none))
    ∧ (m.valid = true →
        (∀ n ∈ pool.meters, ¬ (n.pzem.getaddr = m.addr ∧ n.portId = port_id)) →
        pool.rx_dispatcher m port_id now = (pool, none)) := by
  refine ⟨?_, ?_, ?_⟩
  · intro hv
    simp [PZPool.rx_dispatcher, hv]
  · intro hv k n hk hm huniq
    have hvne : ¬ (m.valid = false) := by simp [hv]
    simp only [PZPool.rx_dispatcher, if_neg hvne]
    rw [dispatchLoop_unique_match m port_id now pool.rxCb pool.meters k n hk hm
      huniq]
  · intro hv hnone
    have hvne : ¬ (m.valid = false) := by simp [hv]
    simp only [PZPool.rx_dispatcher, if_neg hvne]
    rw [dispatchLoop_no_match m port_id now pool.rxCb pool.meters hnone]

/-- Witness for C1: a pool with meters at addresses `0x0A` (id 1) and
`0x0B` (id 2) on port 1; a valid reply addressed to `0x0B` is dispatched to
meter 2 only, and the pool callback receives id 2. -/
theorem pzem_C1_witness :
    (PZPool.rx_dispatcher
      ⟨[1],
        [⟨1, ⟨1, PZEMDev.dev004 { pz004.state.init with addr := 0x0A }, false⟩⟩,
         ⟨1, ⟨2, PZEMDev.dev004 { pz004.state.init with addr := 0x0B }, false⟩⟩],
        true⟩
      ⟨[0x0B, 0x84, 0x01], true⟩ 1 0).2 = some 2 := by
  have h := (pzem_C1_rx_dispatcher
      ⟨[1],
        [⟨1, ⟨1, PZEMDev.dev004 { pz004.state.init with addr := 0x0A }, false⟩⟩,
         ⟨1, ⟨2, PZEMDev.dev004 { pz004.state.init with addr := 0x0B }, false⟩⟩],
        true⟩
      ⟨[0x0B, 0x84, 0x01], true⟩ 1 0).2.1 rfl 1
      ⟨1, ⟨2, PZEMDev.dev004 { pz004.state.init with addr := 0x0B }, false⟩⟩
      rfl (by decide) ?_
  · rw [h]
    rfl
  · intro j nj hj hmj
    match j with
    | 0 =>
      simp only [List.getElem?_cons_zero] at hj
      rw [← Option.some_inj.mp hj] at hmj
      exact absurd hmj (by decide)
    | 1 => rfl
    | (j + 2) =>
      simp at hj

/-- Counterexample to claim C9 as stated: with a meter at slave address
`0x0A` already registered on port 1, a second `addPZEM` for another meter
with the same address `0x0A` on the same port 1 returns `true` and grows
the meter list — `PZPool::addPZEM` performs no per-port slave-address
uniqueness check. -/
theorem pzem_C9_counterexample :
    (PZPool.addPZEM
      ⟨[1],
        [⟨1, ⟨1, PZEMDev.dev004 { pz004.state.init with addr := 0x0A }, false⟩⟩],
        false⟩
      1 2 0x0A pzmodel.pzem004v3).2 = true
    ∧ (PZPool.addPZEM
      ⟨[1],
        [⟨1, ⟨1, PZEMDev.dev004 { pz004.state.init with addr := 0x0A }, false⟩⟩],
        false⟩
      1 2 0x0A pzmodel.pzem004v3).1.meters.length = 2 := by
  constructor
  · rfl
  · rfl

/-- Claim C9 (amended): `PZPool::addPZEM` rejects slave addresses outside
`[0x01, 0xF7]` (in particular `0x00` and `0xF8`), unknown port ids,
duplicate meter ids, and the unknown meter model, leaving the pool
unchanged; but it performs no per-port slave-address uniqueness check: any
add passing those four validations succeeds and appends a node, even when a
meter with the same `(port_id, slave_addr)` is already registered. -/
theorem pzem_C9_addPZEM (pool : PZPool)
    (port_id pzem_id modbus_addr : Nat) (model : pzmodel) :
    (modbus_addr < ADDR_MIN ∨ ADDR_MAX < modbus_addr →
      pool.addPZEM port_id pzem_id modbus_addr model = (pool, false))
    ∧ (pool.port_by_id port_id = false →
      pool.addPZEM port_id pzem_id modbus_addr model = (pool, false))
    ∧ (pool.pzem_by_id pzem_id = true →
      pool.addPZEM port_id pzem_id modbus_addr model = (pool, false))
    ∧ (model = pzmodel.mnone →
      pool.addPZEM port_id pzem_id modbus_addr model = (pool, false))
    ∧ (ADDR_MIN ≤ modbus_addr → modbus_addr ≤ ADDR_MAX →
      pool.port_by_id port_id = true → pool.pzem_by_id pzem_id = false →
      model ≠ pzmodel.mnone →
      (pool.addPZEM port_id pzem_id modbus_addr model).2 = true
      ∧ (pool.addPZEM port_id pzem_id modbus_addr model).1.meters.length
          = pool.meters.length + 1) := by
  refine ⟨?_, ?_, ?_, ?_, ?_⟩
  · intro hrange
    simp only [PZPool.addPZEM]
    rw [if_pos hrange]
  · intro hport
    simp only [PZPool.addPZEM]
    split
    · rfl
    · rw [if_pos (Or.inl hport)]
  · intro hdup
    simp only [PZPool.addPZEM]
    split
    · rfl
    · rw [if_pos (Or.inr (by simp [hdup]))]
  · intro hmodel
    subst hmodel
    simp only [PZPool.addPZEM]
    split
    · rfl
    · split
      · rfl
      · rfl
  · intro h1 h2 hport hfresh hm
    have hnr : ¬ (modbus_addr < ADDR_MIN ∨ ADDR_MAX < modbus_addr) := by
      omega
    have hng : ¬ (pool.port_by_id port_id = false ∨
        pool.pzem_by_id pzem_id = true) := by
      simp [hport, hfresh]
    have haddr4 : (mkPZ004 pzem_id modbus_addr).getaddr = modbus_addr := rfl
    have haddr3 : (mkPZ003 pzem_id modbus_addr).getaddr = modbus_addr := rfl
    simp only [PZPool.addPZEM, if_neg hnr]
    rw [if_neg (by simpa using hng)]
    have hnp : ¬ (pool.port_by_id port_id = false) := by simp [hport]
    cases model with
    | mnone => exact absurd rfl hm
    | pzem004v3 =>
      have hgn : ¬ ((mkPZ004 pzem_id modbus_addr).getaddr < ADDR_MIN ∨
          ADDR_MAX < (mkPZ004 pzem_id modbus_addr).getaddr) := by
        rw [haddr4]
        exact hnr
      simp only [PZPool.addPZEMObj, if_neg hgn, if_neg hnp]
      simp
    | pzem003 =>
      have hgn : ¬ ((mkPZ003 pzem_id modbus_addr).getaddr < ADDR_MIN ∨
          ADDR_MAX < (mkPZ003 pzem_id modbus_addr).getaddr) := by
        rw [haddr3]
        exact hnr
      simp only [PZPool.addPZEMObj, if_neg hgn, if_neg hnp]
      simp

/-- Witness for C9 (amended): on a pool with port 1 and a meter at address
`0x0A`, adds with address `0x00` and `0xF8` are rejected, and a second add
duplicating `(port 1, 0x0A)` with a fresh id succeeds. -/
theorem pzem_C9_witness :
    (PZPool.addPZEM
        ⟨[1], [⟨1, ⟨1, PZEMDev.dev004 { pz004.state.init with addr := 0x0A },
          false⟩⟩], false⟩ 1 2 0x00 pzmodel.pzem004v3).2 = false
    ∧ (PZPool.addPZEM
        ⟨[1], [⟨1, ⟨1, PZEMDev.dev004 { pz004.state.init with addr := 0x0A },
          false⟩⟩], false⟩ 1 2 0xF8 pzmodel.pzem004v3).2 = false
    ∧ (PZPool.addPZEM
        ⟨[1], [⟨1, ⟨1, PZEMDev.dev004 { pz004.state.init with addr := 0x0A },
          false⟩⟩], false⟩ 1 2 0x0A pzmodel.pzem004v3).2 = true := by
  refine ⟨?_, ?_, ?_⟩
  · rw [(pzem_C9_addPZEM
      ⟨[1], [⟨1, ⟨1, PZEMDev.dev004 { pz004.state.init with addr := 0x0A },
        false⟩⟩], false⟩ 1 2 0x00 pzmodel.pzem004v3).1 (Or.inl (by decide))]
  · rw [(pzem_C9_addPZEM
      ⟨[1], [⟨1, ⟨1, PZEMDev.dev004 { pz004.state.init with addr := 0x0A },
        false⟩⟩], false⟩ 1 2 0xF8 pzmodel.pzem004v3).1 (Or.inr (by decide))]
  · exact ((pzem_C9_addPZEM
      ⟨[1], [⟨1, ⟨1, PZEMDev.dev004 { pz004.state.init with addr := 0x0A },
        false⟩⟩], false⟩ 1 2 0x0A pzmodel.pzem004v3).2.2.2.2
      (by decide) (by decide) rfl rfl (by decide)).1

theorem rb_clear_push_back {T : Type} (rb : RingBuff T) (v : T)
    (hC : 0 < rb.capacity) :
    (rb.clear.push_back v).size = 1
    ∧ (rb.clear.push_back v).atVal 0 = some v := by
  have hcc : rb.clear.capacity = rb.capacity := rfl
  have hch : rb.clear.head = 0 := rfl
  have hcs : rb.clear.size = 0 := rfl
  have hsz : (rb.clear.push_back v).size = 1 := by
    rw [rb_push_back_size rb.clear v (by omega), hcs]
    omega
  refine ⟨hsz, ?_⟩
  unfold RingBuff.atVal
  rw [show (0 : Int) = ((0 : Nat) : Int) from rfl,
    rb_atIdx_ofNat (rb.clear.push_back v) 0 (by omega)]
  rw [rb_push_back_head rb.clear v (by omega), rb_push_back_capacity,
    rb_push_back_data]
  rw [if_neg (by omega : ¬ rb.clear.size = rb.clear.capacity), hch, hcc]
  have htail : rb.clear.tail = 0 := by
    unfold RingBuff.tail
    rw [hch, hcs, hcc]
    simp
  rw [htail]
  simp [Nat.mod_eq_of_lt hC]

/-- Claim C5: when `TimeSeries::push` is called with `now - last_tstamp <
interval` (unsigned 32-bit difference), the ring buffer and the stored
timestamp are untouched; the value is fed to the averager when one is
attached and discarded otherwise.  Consequently (last conjunct) pushing at
times `t, t + I/2, t + I` with no averager stores exactly two samples. -/
theorem pzem_C5_ts_push_subinterval (T A : Type) (ops : AvgOps A T)
    (ts : TimeSeries T A) (val : T) (time : Nat)
    (hlt : sub32 time ts.tstamp < ts.interval) :
    (ts.push ops val time).buf = ts.buf
    ∧ (ts.push ops val time).tstamp = ts.tstamp
    ∧ (ts.push ops val time).avg = ts.avg.map (fun a => ops.apush a val)
    ∧ (TimeSeries.push ⟨fun a _ => a, fun _ => 0, fun a => a, fun _ => 0⟩
        (TimeSeries.push ⟨fun a _ => a, fun _ => 0, fun a => a, fun _ => 0⟩
          (TimeSeries.push ⟨fun a _ => a, fun _ => 0, fun a => a, fun _ => 0⟩
            (⟨RingBuff.fresh 4 (fun _ => 0), 0, 10, none⟩ :
              TimeSeries Nat Unit) 1 10) 2 15) 3 20).buf.size = 2 := by
  have hmain : ts.push ops val time
      = { ts with avg := ts.avg.map (fun a => ops.apush a val) } := by
    simp only [TimeSeries.push]
    rw [if_pos hlt]
  refine ⟨by rw [hmain], by rw [hmain], by rw [hmain], ?_⟩
  rfl

/-- Witness for C5: a series with `tstamp = 10`, `interval = 10` receiving
a push at `time = 15` (so `Δ = 5 < 10`) keeps its buffer and timestamp. -/
theorem pzem_C5_witness :
    ((⟨RingBuff.fresh 4 (fun _ => 0), 10, 10, none⟩ :
        TimeSeries Nat Unit).push ⟨fun a _ => a, fun _ => 0, fun a => a,
        fun _ => 0⟩ 2 15).buf.size = 0
    ∧ ((⟨RingBuff.fresh 4 (fun _ => 0), 10, 10, none⟩ :
        TimeSeries Nat Unit).push ⟨fun a _ => a, fun _ => 0, fun a => a,
        fun _ => 0⟩ 2 15).tstamp = 10 := by
  have h := pzem_C5_ts_push_subinterval Nat Unit
    ⟨fun a _ => a, fun _ => 0, fun a => a, fun _ => 0⟩
    ⟨RingBuff.fresh 4 (fun _ => 0), 10, 10, none⟩ 2 15 (by decide)
  refine ⟨?_, h.2.1⟩
  rw [h.1]
  rfl

/-- Claim C6: when the unsigned gap `Δ = now - last_tstamp` satisfies
`Δ / interval > capacity` (with a positive interval and capacity, and an
averager whose `reset` empties its backlog — vacuously so when none is
attached), `TimeSeries::push` clears the whole buffer and starts fresh:
afterwards the buffer holds exactly one element equal to the pushed value
and the stored timestamp equals `now`. -/
theorem pzem_C6_ts_push_bigger_gap (T A : Type) (ops : AvgOps A T)
    (ts : TimeSeries T A) (val : T) (time : Nat)
    (hreset : ∀ a, ops.acnt (ops.areset a) = 0)
    (hI : 0 < ts.interval) (hC : 0 < ts.buf.capacity)
    (hgap : ts.buf.capacity < sub32 time ts.tstamp / ts.interval) :
    (ts.push ops val time).buf.size = 1
    ∧ (ts.push ops val time).buf.atVal 0 = some val
    ∧ (ts.push ops val time).tstamp = time := by
  have hd2 : 2 * ts.interval ≤ sub32 time ts.tstamp := by
    have h1 : (ts.buf.capacity + 1) * ts.interval ≤ sub32 time ts.tstamp :=
      (Nat.le_div_iff_mul_le hI).mp hgap
    nlinarith
  have hnlt : ¬ (sub32 time ts.tstamp < ts.interval) := by omega
  have hmod : 2 * ts.interval % u32 ≤ sub32 time ts.tstamp :=
    le_trans (Nat.mod_le _ _) hd2
  have hpush : (ts.push ops val time).buf = ts.buf.clear.push_back val
      ∧ (ts.push ops val time).tstamp = time := by
    simp only [TimeSeries.push]
    rw [if_neg hnlt, if_pos hmod, if_pos hgap]
    rcases havg : ts.avg with _ | a
    · have hmap : Option.map ops.areset ts.avg = none := by
        rw [havg]
        rfl
      simp only [TimeSeries.clear, hmap]
      exact ⟨by trivial, by trivial⟩
    · have hmap : Option.map ops.areset ts.avg = some (ops.areset a) := by
        rw [havg]
        rfl
      simp only [TimeSeries.clear, hmap]
      rw [if_neg (by simp [hreset a])]
      exact ⟨by trivial, by trivial⟩
  have hone := rb_clear_push_back ts.buf val hC
  refine ⟨?_, ?_, hpush.2⟩
  · rw [hpush.1]
    exact hone.1
  · rw [hpush.1]
    exact hone.2

/-- Witness for C6: a series of capacity 2, interval 10, last stamp 0, with
an empty mean averager attached, pushed at `time = 50` (gap of 5 intervals
> capacity 2): the buffer restarts with exactly that one sample and the
timestamp advances to 50. -/
theorem pzem_C6_witness :
    ((⟨RingBuff.fresh 2 (fun _ => pz004.metrics.zero), 0, 10,
        some MeanAveragePZ004.zero⟩ :
        TimeSeries pz004.metrics MeanAveragePZ004).push MeanAveragePZ004.ops
        ⟨7, 7, 7, 7, 7, 7, 0⟩ 50).buf.size = 1
    ∧ ((⟨RingBuff.fresh 2 (fun _ => pz004.metrics.zero), 0, 10,
        some MeanAveragePZ004.zero⟩ :
        TimeSeries pz004.metrics MeanAveragePZ004).push MeanAveragePZ004.ops
        ⟨7, 7, 7, 7, 7, 7, 0⟩ 50).buf.atVal 0 = some ⟨7, 7, 7, 7, 7, 7, 0⟩
    ∧ ((⟨RingBuff.fresh 2 (fun _ => pz004.metrics.zero), 0, 10,
        some MeanAveragePZ004.zero⟩ :
        TimeSeries pz004.metrics MeanAveragePZ004).push MeanAveragePZ004.ops
        ⟨7, 7, 7, 7, 7, 7, 0⟩ 50).tstamp = 50 :=
  pzem_C6_ts_push_bigger_gap pz004.metrics MeanAveragePZ004
    MeanAveragePZ004.ops
    ⟨RingBuff.fresh 2 (fun _ => pz004.metrics.zero), 0, 10,
      some MeanAveragePZ004.zero⟩
    ⟨7, 7, 7, 7, 7, 7, 0⟩ 50 (fun _ => rfl) (by decide) (by decide)
    (by decide)

/-- Counterexample to claim C7 as stated: in the capacity-4, interval-10
series starting at timestamp 0 with the mean averager attached, pushing 10
at `t = 3`, 20 at `t = 7` and 30 at `t = 11` stores exactly one element, but
its averaged numeric field is not 15: `TimeSeries::push` feeds the incoming
value into the averager *before* calling `get()`, so the stored mean also
includes the value 30. -/
theorem pzem_C7_counterexample :
    (TimeSeries.push MeanAveragePZ004.ops
      (TimeSeries.push MeanAveragePZ004.ops
        (TimeSeries.push MeanAveragePZ004.ops
          (⟨RingBuff.fresh 4 (fun _ => pz004.metrics.zero), 0, 10,
            some MeanAveragePZ004.zero⟩ :
            TimeSeries pz004.metrics MeanAveragePZ004)
          ⟨10, 10, 10, 10, 10, 10, 0⟩ 3)
        ⟨20, 20, 20, 20, 20, 20, 0⟩ 7)
      ⟨30, 30, 30, 30, 30, 30, 0⟩ 11).buf.size = 1
    ∧ ¬ ((TimeSeries.push MeanAveragePZ004.ops
      (TimeSeries.push MeanAveragePZ004.ops
        (TimeSeries.push MeanAveragePZ004.ops
          (⟨RingBuff.fresh 4 (fun _ => pz004.metrics.zero), 0, 10,
            some MeanAveragePZ004.zero⟩ :
            TimeSeries pz004.metrics MeanAveragePZ004)
          ⟨10, 10, 10, 10, 10, 10, 0⟩ 3)
        ⟨20, 20, 20, 20, 20, 20, 0⟩ 7)
      ⟨30, 30, 30, 30, 30, 30, 0⟩ 11).buf.atVal 0).map pz004.metrics.voltage
        = some 15 := by
  constructor
  · rfl
  · decide

/-- Claim C7 (amended): in that same scenario the three pushes leave exactly
one stored element whose averaged numeric fields equal 20 — the mean of 10,
20 *and* the incoming 30, since `push` feeds the closing value to the
averager before reading its result — with the energy field assigned the last
value 30; the value 30 is indeed retained inside the averager (count 1) for
the next interval. -/
theorem pzem_C7_mean_averager :
    (TimeSeries.push MeanAveragePZ004.ops
      (TimeSeries.push MeanAveragePZ004.ops
        (TimeSeries.push MeanAveragePZ004.ops
          (⟨RingBuff.fresh 4 (fun _ => pz004.metrics.zero), 0, 10,
            some MeanAveragePZ004.zero⟩ :
            TimeSeries pz004.metrics MeanAveragePZ004)
          ⟨10, 10, 10, 10, 10, 10, 0⟩ 3)
        ⟨20, 20, 20, 20, 20, 20, 0⟩ 7)
      ⟨30, 30, 30, 30, 30, 30, 0⟩ 11).buf.size = 1
    ∧ (TimeSeries.push MeanAveragePZ004.ops
      (TimeSeries.push MeanAveragePZ004.ops
        (TimeSeries.push MeanAveragePZ004.ops
          (⟨RingBuff.fresh 4 (fun _ => pz004.metrics.zero), 0, 10,
            some MeanAveragePZ004.zero⟩ :
            TimeSeries pz004.metrics MeanAveragePZ004)
          ⟨10, 10, 10, 10, 10, 10, 0⟩ 3)
        ⟨20, 20, 20, 20, 20, 20, 0⟩ 7)
      ⟨30, 30, 30, 30, 30, 30, 0⟩ 11).buf.atVal 0
        = some ⟨20, 20, 20, 30, 20, 20, 0⟩
    ∧ (TimeSeries.push MeanAveragePZ004.ops
      (TimeSeries.push MeanAveragePZ004.ops
        (TimeSeries.push MeanAveragePZ004.ops
          (⟨RingBuff.fresh 4 (fun _ => pz004.metrics.zero), 0, 10,
            some MeanAveragePZ004.zero⟩ :
            TimeSeries pz004.metrics MeanAveragePZ004)
          ⟨10, 10, 10, 10, 10, 10, 0⟩ 3)
        ⟨20, 20, 20, 20, 20, 20, 0⟩ 7)
      ⟨30, 30, 30, 30, 30, 30, 0⟩ 11).avg
        = some ⟨30, 30, 30, 30, 30, 30, 1⟩ := by
  refine ⟨rfl, ?_, ?_⟩
  · decide
  · decide
